import Mathlib

/-!
Verification of the balance-aggregation core of a crypto dashboard
application (a single Python file, `app.py`).

The development is a shallow embedding of the program's pure logic:

* Python `float` quantities are modelled as `ℚ` (the program only adds,
  multiplies and divides such quantities; every concrete value appearing
  in the claims is exactly representable).
* Each HTTP call is modelled by an oracle argument (a function from the
  request to an abstract result), so a fetcher becomes a pure function of
  the oracle, and error propagation (`raise_for_status`, uncaught
  exceptions) becomes `Except`.
* Python `dict` (insertion ordered) is modelled as an association list,
  with `dict.get`/item-assignment modelled by `dictGet`/`dictSet`.
* Python loops that append to an output list are rendered as structural
  recursion over the input list, producing the elements in the same order.
* `str.upper()` is modelled by `pyUpper` (ASCII case mapping, which is
  what the program relies on: all symbols compared are ASCII).
* `hmac.new(secret.encode(), qs.encode(), hashlib.sha256).hexdigest()` is
  embedded as a full executable SHA-256 / HMAC implementation over byte
  lists (bytes are `Nat` below 256), with UTF-8 encoding of the inputs.
-/

/-! ## Basic data model -/

/-- A normalized balance record, as built by every fetcher in `app.py`:
the Python dict with keys `asset`, `amount`, `usd`, `src`. -/
structure BalanceRecord where
  asset : String
  amount : ℚ
  usd : ℚ
  src : String
deriving DecidableEq

/-! ## Python `str.upper` (ASCII fragment) -/

/-- ASCII uppercase mapping of one character, modelling what Python
`str.upper()` does on the ASCII letters the program works with. -/
def pyUpperChar (c : Char) : Char :=
  if 97 ≤ c.toNat ∧ c.toNat ≤ 122 then Char.ofNat (c.toNat - 32) else c

/-- Model of Python `s.upper()` on ASCII strings: uppercase every
character. -/
def pyUpper (s : String) : String :=
  ⟨s.data.map pyUpperChar⟩

/-! ## Price resolver (`price_usdt` in `app.py`)

The ticker endpoint `GET /api/v3/ticker/price?symbol=<SYM>` is modelled by
an oracle `ticker : String → TickerResult`; `TickerResult.fail` stands for
any failure the `try` block catches (network error, non-2xx status from
`raise_for_status`, body that fails to parse), `TickerResult.ok p` for a
successful response whose `price` field parses to `p`.

`price_usdt` returns the resulting price together with the list of ticker
symbols that were requested over the network, in order, so that the
absence of network traffic is itself provable. -/

/-- Outcome of one spot-ticker HTTP lookup. -/
inductive TickerResult where
  | ok : ℚ → TickerResult
  | fail : TickerResult
deriving DecidableEq

/-- The fixed stablecoin set of `price_usdt`. -/
def stablecoins : List String := ["USDT", "BUSD", "FDUSD"]

/-- Embedding of `price_usdt(asset)`: first component is the returned
price, second component the list of ticker symbols requested over the
network during the call. -/
def price_usdt (ticker : String → TickerResult) (asset : String) : ℚ × List String :=
  if pyUpper asset ∈ stablecoins then (1, [])
  else
    let symbol := pyUpper asset ++ "USDT"
    match ticker symbol with
    | .ok p => (p, [symbol])
    | .fail => (0, [symbol])

/-! ## Exchange fetcher (`fetch_binance`)

The account endpoint's JSON `balances` array is modelled as a list of
entries whose `free` and `locked` fields carry the values that
`float(...)` parses them to. The loop body `if tot:` is Python float
truthiness, i.e. `tot ≠ 0`. -/

/-- One entry of the `balances` array of the account response; `free` and
`locked` are the parsed values of the corresponding JSON strings. -/
structure BinBalance where
  asset : String
  free : ℚ
  locked : ℚ
deriving DecidableEq

/-- Embedding of the record-building loop of `fetch_binance` (the HTTP
call itself either succeeds, yielding the `balances` list, or the
exception propagates to the caller; this function is the success path). -/
def fetch_binance (price : String → ℚ) : List BinBalance → List BalanceRecord
  | [] => []
  | b :: rest =>
    let tot := b.free + b.locked
    if tot ≠ 0 then
      ⟨b.asset, tot, tot * price b.asset, "Binance"⟩ :: fetch_binance price rest
    else
      fetch_binance price rest

/-! ## ETH fetcher (`fetch_eth`) -/

/-- One token entry of the DeBank token-list response. `symbol`, `amount`
and `price` use `Option` to model a possibly missing JSON key (the code
reads them with `.get`); `id` is read with `t["id"]` only when `symbol`
is absent, and its absence would abort the fetch, so it is kept total
here. -/
structure EthToken where
  id : String
  symbol : Option String
  amount : Option ℚ
  price : Option ℚ
deriving DecidableEq

/-- Embedding of the record-building loop of `fetch_eth` (success path of
the HTTP call). `t.get("amount", 0)` and `if amt:` become `getD 0` and
`amt ≠ 0`. -/
def fetch_eth (price_fn : String → ℚ) : List EthToken → List BalanceRecord
  | [] => []
  | t :: rest =>
    let amt := t.amount.getD 0
    if amt ≠ 0 then
      let sym := t.symbol.getD t.id
      let p := t.price.getD (price_fn sym)
      ⟨sym, amt, amt * p, "ETH"⟩ :: fetch_eth price_fn rest
    else
      fetch_eth price_fn rest

/-! ## SOL fetcher (`fetch_sol`) -/

/-- The `tokenAmount` object of one Solscan token entry. `amount = none`
models a missing `amount` key or a string `int(...)` fails on (both raise
`KeyError`/`ValueError`, which the loop catches); `decimals` is read with
`.get("decimals", 0)`, so a missing key is already the value `0`. -/
structure SolTokenAmount where
  amount : Option Int
  decimals : Nat
deriving DecidableEq

/-- One Solscan token entry. `tokenAmount = none` models a missing
`tokenAmount` key (`KeyError`, caught by the loop). -/
structure SolToken where
  tokenAmount : Option SolTokenAmount
  tokenSymbol : Option String
  mintAddress : Option String
deriving DecidableEq

/-- The `try` block of the `fetch_sol` loop: the parsed display amount of
one token entry, or `none` when the entry is skipped by the
`except (KeyError, ValueError): continue` handler. Mirrors
`amt = lamports / (10 ** dec) if dec else 0`. -/
def solAmount (t : SolToken) : Option ℚ :=
  match t.tokenAmount with
  | none => none
  | some ta =>
    match ta.amount with
    | none => none
    | some lam => some (if ta.decimals ≠ 0 then (lam : ℚ) / 10 ^ ta.decimals else 0)

/-- Mirrors `sym = t.get("tokenSymbol") or t.get("mintAddress", "")[:6]`:
a missing or empty (falsy) `tokenSymbol` falls back to the first six
characters of `mintAddress`. -/
def solSymbol (t : SolToken) : String :=
  match t.tokenSymbol with
  | some s => if s ≠ "" then s else (t.mintAddress.getD "").take 6
  | none => (t.mintAddress.getD "").take 6

/-- Embedding of the record-building loop of `fetch_sol` over the parsed
token list. -/
def solRecords (price_fn : String → ℚ) : List SolToken → List BalanceRecord
  | [] => []
  | t :: rest =>
    match solAmount t with
    | none => solRecords price_fn rest
    | some amt =>
      if amt ≠ 0 then
        ⟨solSymbol t, amt, amt * price_fn (solSymbol t), "SOL"⟩ :: solRecords price_fn rest
      else
        solRecords price_fn rest

/-- Outcome of one HTTP GET as seen by `fetch_sol`: a 404 status, any
other error (non-2xx status raised by `raise_for_status`, network error,
or an unparseable body raised by `r.json()`), or a parsed body. -/
inductive HttpResult (α : Type) where
  | notFound : HttpResult α
  | httpError : String → HttpResult α
  | ok : α → HttpResult α
deriving DecidableEq

/-- Base URL constant `API_SOLSCAN` of `app.py`. -/
def API_SOLSCAN : String := "https://public-api.solscan.io"

/-- First URL variant tried by `fetch_sol` (`?account=` convention). -/
def solAccountUrl (addr : String) : String :=
  API_SOLSCAN ++ "/account/tokens?account=" ++ addr

/-- Second URL variant tried by `fetch_sol` (`?address=` convention). -/
def solAddressUrl (addr : String) : String :=
  API_SOLSCAN ++ "/account/tokens?address=" ++ addr

/-- The ordered `variants` list of `fetch_sol`. -/
def solVariants (addr : String) : List String :=
  [solAccountUrl addr, solAddressUrl addr]

/-- The `for url in variants` loop of `fetch_sol`: a 404 moves on to the
next variant, any other error propagates (`raise_for_status`), a parsed
body short-circuits; exhausting all variants yields `none`
(`tokens is None` in the source). -/
def solTryVariants (fetchUrl : String → HttpResult (List SolToken)) :
    List String → Except String (Option (List SolToken))
  | [] => .ok none
  | url :: rest =>
    match fetchUrl url with
    | .notFound => solTryVariants fetchUrl rest
    | .httpError e => .error e
    | .ok toks => .ok (some toks)

/-- Embedding of `fetch_sol(addr)`, with the per-URL HTTP call abstracted
by the oracle `fetchUrl`. -/
def fetch_sol (price_fn : String → ℚ) (fetchUrl : String → HttpResult (List SolToken))
    (addr : String) : Except String (List BalanceRecord) :=
  match solTryVariants fetchUrl (solVariants addr) with
  | .error e => .error e
  | .ok none => .ok []
  | .ok (some toks) => .ok (solRecords price_fn toks)

/-! ## BTC fetcher (`fetch_btc`) -/

/-- Embedding of the success path of `fetch_btc`: `sat` is the value of
`r.json().get("balance", 0)` (so a response without a `balance` key is
already `sat = 0`); the function always returns exactly one record with
`btc = sat / 1e8`. -/
def fetch_btc (price_fn : String → ℚ) (sat : Int) : List BalanceRecord :=
  let btc : ℚ := (sat : ℚ) / 100000000
  [⟨"BTC", btc, btc * price_fn "BTC", "BTC"⟩]

/-! ## Dashboard aggregation (the `elif page == "Dashboard"` block)

The aggregation state is the insertion-ordered Python dict `agg`,
modelled as an association list, plus the list of per-source error
messages emitted by `st.error(f"{lab}: {e}")`, in order. Each configured
source is modelled by its label together with the outcome of its fetch:
`Except.ok` carries the fetched balance records, `Except.error` the
exception message. -/

/-- The aggregation dictionary: insertion-ordered map from asset symbol
to accumulated USD value. -/
abbrev Agg := List (String × ℚ)

/-- Python `agg.get(k, 0)`. -/
def dictGet (agg : Agg) (k : String) : ℚ :=
  match agg with
  | [] => 0
  | (k2, v) :: rest => if k2 = k then v else dictGet rest k

/-- Python `agg[k] = v` on an insertion-ordered dict: update in place if
the key is present, else append at the end. -/
def dictSet (agg : Agg) (k : String) (v : ℚ) : Agg :=
  match agg with
  | [] => [(k, v)]
  | (k2, v2) :: rest => if k2 = k then (k, v) :: rest else (k2, v2) :: dictSet rest k v

/-- The inner loop `for b in toks: agg[b["asset"]] = agg.get(b["asset"], 0) + b["usd"]`. -/
def aggregateRecords : Agg → List BalanceRecord → Agg
  | agg, [] => agg
  | agg, b :: rest => aggregateRecords (dictSet agg b.asset (dictGet agg b.asset + b.usd)) rest

/-- The outer loops over configured sources: a successful fetch feeds the
aggregation dict, a failed one appends the per-source diagnostic
`f"{lab}: {e}"` and the loop continues. -/
def runSources : Agg × List String → List (String × Except String (List BalanceRecord)) → Agg × List String
  | st, [] => st
  | st, (lab, Except.error e) :: rest => runSources (st.1, st.2 ++ [lab ++ ": " ++ e]) rest
  | st, (_, Except.ok recs) :: rest => runSources (aggregateRecords st.1 recs, st.2) rest

/-- The whole aggregation pass of the Dashboard page, from the configured
sources and their fetch outcomes. -/
def dashboard (sources : List (String × Except String (List BalanceRecord))) : Agg × List String :=
  runSources ([], []) sources

/-- Python `total = sum(agg.values())`. -/
def total_usd (agg : Agg) : ℚ :=
  (agg.map Prod.snd).sum

/-- The comparison underlying `sorted(agg.items(), key=lambda x: x[1],
reverse=True)`: row `a` may come before row `b` when `b`'s USD value is
at most `a`'s. -/
def rowsGE (a b : String × ℚ) : Prop := b.2 ≤ a.2

instance : DecidableRel rowsGE := fun a b => (inferInstance : Decidable (b.2 ≤ a.2))

instance : IsTotal (String × ℚ) rowsGE := ⟨fun a b => le_total b.2 a.2⟩

instance : IsTrans (String × ℚ) rowsGE := ⟨fun _ _ _ h1 h2 => le_trans h2 h1⟩

/-- Embedding of `sorted(agg.items(), key=lambda x: x[1], reverse=True)`:
a stable sort of the rows by descending USD value. (Python's `sorted` and
insertion sort are both stable with respect to the same total preorder,
hence agree extensionally.) -/
def sortRows (agg : Agg) : Agg :=
  List.insertionSort rowsGE agg

/-! ## Signer (`_sign` in `app.py`)

`_sign(qs, secret)` is `hmac.new(secret.encode(), qs.encode(),
hashlib.sha256).hexdigest()`. The Python standard library primitives it
calls are embedded executably: SHA-256 (FIPS 180-4) over byte lists
(bytes are naturals below 256), HMAC (RFC 2104) on top of it, UTF-8
encoding of the two string arguments, and lowercase hex display of the
digest. The implementation is validated below against published test
vectors. -/

/-- Truncation to a 32-bit word. -/
def w32 (n : Nat) : Nat := n % 4294967296

/-- Right rotation of a 32-bit word. -/
def rotr32 (x n : Nat) : Nat := w32 ((x >>> n) ||| (x <<< (32 - n)))

/-- SHA-256 choice function. -/
def shaCh (e f g : Nat) : Nat := (e &&& f) ^^^ ((e ^^^ 4294967295) &&& g)

/-- SHA-256 majority function. -/
def shaMaj (a b c : Nat) : Nat := (a &&& b) ^^^ (a &&& c) ^^^ (b &&& c)

/-- SHA-256 big sigma 0. -/
def shaS0 (a : Nat) : Nat := rotr32 a 2 ^^^ rotr32 a 13 ^^^ rotr32 a 22

/-- SHA-256 big sigma 1. -/
def shaS1 (e : Nat) : Nat := rotr32 e 6 ^^^ rotr32 e 11 ^^^ rotr32 e 25

/-- SHA-256 small sigma 0. -/
def shaG0 (x : Nat) : Nat := rotr32 x 7 ^^^ rotr32 x 18 ^^^ (x >>> 3)

/-- SHA-256 small sigma 1. -/
def shaG1 (x : Nat) : Nat := rotr32 x 17 ^^^ rotr32 x 19 ^^^ (x >>> 10)

/-- The eight SHA-256 working variables. -/
structure ShaState where
  a : Nat
  b : Nat
  c : Nat
  d : Nat
  e : Nat
  f : Nat
  g : Nat
  h : Nat
deriving DecidableEq

/-- SHA-256 initial hash value (FIPS 180-4, written in decimal). -/
def shaInit : ShaState :=
  ⟨1779033703, 3144134277, 1013904242, 2773480762,
   1359893119, 2600822924, 528734635, 1541459225⟩

/-- SHA-256 round constants (FIPS 180-4, written in decimal). -/
def shaK : List Nat :=
  [1116352408, 1899447441, 3049323471, 3921009573,
   961987163, 1508970993, 2453635748, 2870763221,
   3624381080, 310598401, 607225278, 1426881987,
   1925078388, 2162078206, 2614888103, 3248222580,
   3835390401, 4022224774, 264347078, 604807628,
   770255983, 1249150122, 1555081692, 1996064986,
   2554220882, 2821834349, 2952996808, 3210313671,
   3336571891, 3584528711, 113926993, 338241895,
   666307205, 773529912, 1294757372, 1396182291,
   1695183700, 1986661051, 2177026350, 2456956037,
   2730485921, 2820302411, 3259730800, 3345764771,
   3516065817, 3600352804, 4094571909, 275423344,
   430227734, 506948616, 659060556, 883997877,
   958139571, 1322822218, 1537002063, 1747873779,
   1955562222, 2024104815, 2227730452, 2361852424,
   2428436474, 2756734187, 3204031479, 3329325298]

/-- Big-endian packing of bytes into 32-bit words. -/
def bytesToWords : List Nat → List Nat
  | b0 :: b1 :: b2 :: b3 :: rest => (((b0 * 256 + b1) * 256 + b2) * 256 + b3) :: bytesToWords rest
  | _ => []

/-- Word of the message schedule at an index (0 out of range). -/
def wAt (w : List Nat) (i : Nat) : Nat := w.getD i 0

/-- Append the next word of the SHA-256 message schedule. -/
def extendStep (w : List Nat) : List Nat :=
  let i := w.length
  w ++ [w32 (wAt w (i - 16) + shaG0 (wAt w (i - 15)) + wAt w (i - 7) + shaG1 (wAt w (i - 2)))]

/-- Iterate `extendStep`. -/
def extendMany : Nat → List Nat → List Nat
  | 0, w => w
  | n + 1, w => extendMany n (extendStep w)

/-- The 64-word message schedule of one 64-byte block. -/
def shaSchedule (block : List Nat) : List Nat := extendMany 48 (bytesToWords block)

/-- One SHA-256 compression round; `kw` is the round constant plus the
schedule word. -/
def shaRound (s : ShaState) (kw : Nat) : ShaState :=
  let t1 := w32 (s.h + shaS1 s.e + shaCh s.e s.f s.g + kw)
  let t2 := w32 (shaS0 s.a + shaMaj s.a s.b s.c)
  ⟨w32 (t1 + t2), s.a, s.b, s.c, w32 (s.d + t1), s.e, s.f, s.g⟩

/-- Compress one 64-byte block into the running hash state. -/
def shaCompress (s : ShaState) (block : List Nat) : ShaState :=
  let ws := shaSchedule block
  let t := (shaK.zip ws).foldl (fun st kw => shaRound st (kw.1 + kw.2)) s
  ⟨w32 (s.a + t.a), w32 (s.b + t.b), w32 (s.c + t.c), w32 (s.d + t.d),
   w32 (s.e + t.e), w32 (s.f + t.f), w32 (s.g + t.g), w32 (s.h + t.h)⟩

/-- Big-endian bytes of a number, fixed width. -/
def toBytesBE : Nat → Nat → List Nat
  | 0, _ => []
  | l + 1, n => toBytesBE l (n >>> 8) ++ [n % 256]

/-- SHA-256 padding: `0x80`, zeros, and the 64-bit big-endian bit
length, to a multiple of 64 bytes. -/
def shaPad (msg : List Nat) : List Nat :=
  let l := msg.length
  let z := (119 - l % 64) % 64
  msg ++ 128 :: (List.replicate z 0 ++ toBytesBE 8 (8 * l))

/-- Big-endian bytes of one 32-bit word. -/
def wordBytes (w : Nat) : List Nat := [(w >>> 24) % 256, (w >>> 16) % 256, (w >>> 8) % 256, w % 256]

/-- Split into 64-byte blocks (first argument is fuel, instantiated with
the length of the list). -/
def chunks64 : Nat → List Nat → List (List Nat)
  | 0, _ => []
  | _ + 1, [] => []
  | n + 1, l => l.take 64 :: chunks64 n (l.drop 64)

/-- SHA-256 of a byte list (the 32 digest bytes). -/
def sha256 (msg : List Nat) : List Nat :=
  let padded := shaPad msg
  let s := (chunks64 padded.length padded).foldl shaCompress shaInit
  wordBytes s.a ++ wordBytes s.b ++ wordBytes s.c ++ wordBytes s.d ++
    wordBytes s.e ++ wordBytes s.f ++ wordBytes s.g ++ wordBytes s.h

/-- HMAC-SHA256 (RFC 2104) of a message under a key, both byte lists. -/
def hmacSha256 (key msg : List Nat) : List Nat :=
  let k0 := if 64 < key.length then sha256 key else key
  let kp := k0 ++ List.replicate (64 - k0.length) 0
  sha256 ((kp.map (fun b => b ^^^ 92)) ++ sha256 ((kp.map (fun b => b ^^^ 54)) ++ msg))

/-- UTF-8 encoding of one character (what Python `str.encode()` does per
code point). -/
def utf8Bytes (c : Char) : List Nat :=
  let n := c.toNat
  if n < 128 then [n]
  else if n < 2048 then [192 + n / 64, 128 + n % 64]
  else if n < 65536 then [224 + n / 4096, 128 + n / 64 % 64, 128 + n % 64]
  else [240 + n / 262144, 128 + n / 4096 % 64, 128 + n / 64 % 64, 128 + n % 64]

/-- UTF-8 bytes of a string, modelling Python `s.encode()`. -/
def strBytes (s : String) : List Nat := (s.data.map utf8Bytes).flatten

/-- Lowercase hexadecimal digit. -/
def hexDigitChar (n : Nat) : Char := if n < 10 then Char.ofNat (48 + n) else Char.ofNat (87 + n)

/-- Two lowercase hex characters of one byte. -/
def byteHex (b : Nat) : List Char := [hexDigitChar (b / 16), hexDigitChar (b % 16)]

/-- Lowercase hex string of a byte list, modelling `.hexdigest()`. -/
def hexOfBytes (bs : List Nat) : String := ⟨(bs.map byteHex).flatten⟩

/-- Embedding of `_sign(qs, secret)`:
`hmac.new(secret.encode(), qs.encode(), hashlib.sha256).hexdigest()`. -/
def _sign (qs secret : String) : String :=
  hexOfBytes (hmacSha256 (strBytes secret) (strBytes qs))

/-! ## Supporting lemmas -/

/-- Converting a valid code point to a character and back is the
identity. -/
theorem charOfNat_toNat {n : Nat} (h : n.isValidChar) : (Char.ofNat n).toNat = n := by
  rw [Char.ofNat, dif_pos h]
  rfl

/-- ASCII uppercasing of one character is idempotent. -/
theorem pyUpperChar_idem (c : Char) : pyUpperChar (pyUpperChar c) = pyUpperChar c := by
  unfold pyUpperChar
  by_cases h : 97 ≤ c.toNat ∧ c.toNat ≤ 122
  · rw [if_pos h]
    have hv : (c.toNat - 32).isValidChar := by
      left
      omega
    rw [if_neg]
    rw [charOfNat_toNat hv]
    omega
  · rw [if_neg h, if_neg h]

/-- `pyUpper` is idempotent. -/
theorem pyUpper_idem (s : String) : pyUpper (pyUpper s) = pyUpper s := by
  unfold pyUpper
  simp only [List.map_map]
  congr 1
  exact List.map_congr_left fun c _ => pyUpperChar_idem c

/-- Reading back a key just written into the aggregation dict. -/
theorem dictGet_dictSet (agg : Agg) (k k2 : String) (v : ℚ) :
    dictGet (dictSet agg k v) k2 = if k = k2 then v else dictGet agg k2 := by
  induction agg with
  | nil => simp [dictGet, dictSet]
  | cons hd tl ih =>
    obtain ⟨hk, hv⟩ := hd
    by_cases h : hk = k
    · subst h
      simp only [dictGet, dictSet, if_pos rfl]
      by_cases h2 : hk = k2 <;> simp [dictGet, h2]
    · simp only [dictSet, if_neg h]
      by_cases h2 : k = k2
      · subst h2
        simp [dictGet, ih, h]
      · simp [dictGet, ih, h2]

/-- Accumulating `u` into key `k` grows the sum of the dict values by
exactly `u`. -/
theorem total_usd_dictSet (agg : Agg) (k : String) (u : ℚ) :
    total_usd (dictSet agg k (dictGet agg k + u)) = total_usd agg + u := by
  induction agg with
  | nil => simp [total_usd, dictGet, dictSet]
  | cons hd tl ih =>
    obtain ⟨hk, hv⟩ := hd
    by_cases h : hk = k
    · subst h
      simp [total_usd, dictGet, dictSet]
      ring
    · simp only [dictSet, dictGet, if_neg h]
      simp only [total_usd, List.map_cons, List.sum_cons] at ih ⊢
      rw [ih]
      ring

/-- Aggregating a batch of records adds their USD values to the total. -/
theorem total_usd_aggregateRecords (recs : List BalanceRecord) :
    ∀ agg : Agg, total_usd (aggregateRecords agg recs) = total_usd agg + (recs.map BalanceRecord.usd).sum := by
  induction recs with
  | nil => intro agg; simp [aggregateRecords]
  | cons b rest ih =>
    intro agg
    simp only [aggregateRecords, List.map_cons, List.sum_cons]
    rw [ih, total_usd_dictSet]
    ring

/-- Aggregating a batch of records adds, per asset symbol, the USD values
of the records carrying that symbol. -/
theorem dictGet_aggregateRecords (recs : List BalanceRecord) :
    ∀ (agg : Agg) (k : String),
      dictGet (aggregateRecords agg recs) k
        = dictGet agg k + ((recs.filter fun r => decide (r.asset = k)).map BalanceRecord.usd).sum := by
  induction recs with
  | nil => intro agg k; simp [aggregateRecords]
  | cons b rest ih =>
    intro agg k
    simp only [aggregateRecords]
    rw [ih]
    rw [dictGet_dictSet]
    by_cases h : b.asset = k
    · simp [List.filter_cons, h]
      ring
    · simp [List.filter_cons, h]

/-- Aggregation distributes over list concatenation. -/
theorem aggregateRecords_append (l1 l2 : List BalanceRecord) :
    ∀ agg : Agg, aggregateRecords agg (l1 ++ l2) = aggregateRecords (aggregateRecords agg l1) l2 := by
  induction l1 with
  | nil => intro agg; rfl
  | cons b rest ih => intro agg; simp only [List.cons_append, aggregateRecords]; exact ih _

/-- The aggregation dict computed by the source loop does not depend on
the diagnostics accumulated so far. -/
theorem runSources_fst_congr (l : List (String × Except String (List BalanceRecord))) :
    ∀ (agg : Agg) (e1 e2 : List String),
      (runSources (agg, e1) l).1 = (runSources (agg, e2) l).1 := by
  induction l with
  | nil => intro agg e1 e2; rfl
  | cons hd tl ih =>
    intro agg e1 e2
    obtain ⟨lab, res⟩ := hd
    cases res with
    | error e => simp only [runSources]; exact ih _ _ _
    | ok recs => simp only [runSources]; exact ih _ _ _

/-- Diagnostics already recorded survive the rest of the source loop. -/
theorem runSources_errs_mono (l : List (String × Except String (List BalanceRecord))) :
    ∀ (agg : Agg) (errs : List String) (m : String),
      m ∈ errs → m ∈ (runSources (agg, errs) l).2 := by
  induction l with
  | nil => intro agg errs m hm; exact hm
  | cons hd tl ih =>
    intro agg errs m hm
    obtain ⟨lab, res⟩ := hd
    cases res with
    | error e =>
      simp only [runSources]
      exact ih _ _ _ (List.mem_append_left _ hm)
    | ok recs =>
      simp only [runSources]
      exact ih _ _ _ hm

/-- The source loop over a concatenation is the composition of the
loops. -/
theorem runSources_append (l1 l2 : List (String × Except String (List BalanceRecord))) :
    ∀ st, runSources st (l1 ++ l2) = runSources (runSources st l1) l2 := by
  induction l1 with
  | nil => intro st; rfl
  | cons hd tl ih =>
    intro st
    obtain ⟨lab, res⟩ := hd
    cases res with
    | error e => simp only [List.cons_append, runSources]; exact ih _
    | ok recs => simp only [List.cons_append, runSources]; exact ih _

/-- On sources that all fetched successfully, the loop aggregates the
concatenation of all fetched records and records no diagnostic. -/
theorem runSources_all_ok (srcs : List (String × List BalanceRecord)) :
    ∀ st, runSources st (srcs.map fun s => (s.1, Except.ok s.2))
      = (aggregateRecords st.1 (srcs.map Prod.snd).flatten, st.2) := by
  induction srcs with
  | nil => intro st; simp [runSources, aggregateRecords]
  | cons hd tl ih =>
    intro st
    simp only [List.map_cons, List.flatten, runSources, ih, aggregateRecords_append]

/-- Closed form of the exchange fetcher: keep exactly the entries with
nonzero total, in order. -/
theorem fetch_binance_eq (price : String → ℚ) :
    ∀ balances : List BinBalance,
      fetch_binance price balances
        = (balances.filter fun b => decide (b.free + b.locked ≠ 0)).map
            (fun b => ⟨b.asset, b.free + b.locked, (b.free + b.locked) * price b.asset, "Binance"⟩) := by
  intro balances
  induction balances with
  | nil => rfl
  | cons b rest ih =>
    by_cases h : b.free + b.locked ≠ 0
    · simp [fetch_binance, List.filter_cons, h, ih]
    · simp [fetch_binance, List.filter_cons, h, ih]

/-- Closed form of the ETH fetcher: keep exactly the entries with nonzero
amount, in order. -/
theorem fetch_eth_eq (price_fn : String → ℚ) :
    ∀ tokens : List EthToken,
      fetch_eth price_fn tokens
        = (tokens.filter fun t => decide (t.amount.getD 0 ≠ 0)).map
            (fun t => ⟨t.symbol.getD t.id, t.amount.getD 0,
              t.amount.getD 0 * t.price.getD (price_fn (t.symbol.getD t.id)), "ETH"⟩) := by
  intro tokens
  induction tokens with
  | nil => rfl
  | cons t rest ih =>
    by_cases h : t.amount.getD 0 ≠ 0
    · simp [fetch_eth, List.filter_cons, h, ih]
    · simp [fetch_eth, List.filter_cons, h, ih]

/-- Closed form of the SOL record loop: each token entry is handled
individually, a skipped entry contributing nothing and every other entry
one record. -/
theorem solRecords_eq (price_fn : String → ℚ) :
    ∀ tokens : List SolToken,
      solRecords price_fn tokens
        = tokens.filterMap (fun t =>
            match solAmount t with
            | none => none
            | some amt =>
              if amt ≠ 0 then
                some ⟨solSymbol t, amt, amt * price_fn (solSymbol t), "SOL"⟩
              else
                none) := by
  intro tokens
  induction tokens with
  | nil => rfl
  | cons t rest ih =>
    cases h : solAmount t with
    | none => simp [solRecords, List.filterMap_cons, h, ih]
    | some amt =>
      by_cases h2 : amt ≠ 0
      · simp [solRecords, List.filterMap_cons, h, h2, ih]
      · simp [solRecords, List.filterMap_cons, h, h2, ih]

/-- A SHA-256 digest is 32 bytes long. -/
theorem sha256_length (msg : List Nat) : (sha256 msg).length = 32 := by
  simp [sha256, wordBytes]

/-- An HMAC-SHA256 digest is 32 bytes long. -/
theorem hmacSha256_length (key msg : List Nat) : (hmacSha256 key msg).length = 32 := by
  unfold hmacSha256
  exact sha256_length _

/-- Hex display doubles the length. -/
theorem hexOfBytes_data_length (bs : List Nat) : (hexOfBytes bs).data.length = 2 * bs.length := by
  induction bs with
  | nil => rfl
  | cons b rest ih =>
    simp only [hexOfBytes, List.map_cons, List.flatten, byteHex] at ih ⊢
    simp at ih ⊢
    omega

/-- Every signature the signer produces is a 64-character string. -/
theorem sign_data_length (qs secret : String) : (_sign qs secret).data.length = 64 := by
  unfold _sign
  rw [hexOfBytes_data_length, hmacSha256_length]

/-- There are finitely many characters. -/
theorem char_finite : Finite Char := by
  apply Finite.of_injective (fun c : Char => c.val.toBitVec.toFin)
  intro a b hab
  apply Char.eq_of_val_eq
  apply UInt32.eq_of_toBitVec_eq
  exact BitVec.toFin_inj.mp hab

/-- There are infinitely many strings. -/
theorem string_infinite : Infinite String := by
  apply Infinite.of_injective (fun n : Nat => String.mk (List.replicate n 'a'))
  intro m n hmn
  have := congrArg (fun s : String => s.data.length) hmn
  simpa using this

/-- There are only finitely many strings of 64 characters. -/
theorem len64_finite : Finite {s : String // s.data.length = 64} := by
  have : Finite Char := char_finite
  apply Finite.of_injective (fun s : {s : String // s.data.length = 64} =>
    (fun i : Fin 64 => s.1.data.get (Fin.cast s.2.symm i)))
  intro ⟨⟨sd⟩, hs⟩ ⟨⟨td⟩, ht⟩ hf
  simp only at hs ht
  apply Subtype.ext
  simp only
  congr 1
  apply List.ext_get (by rw [hs, ht])
  intro i h1 h2
  have := congrFun hf ⟨i, by omega⟩
  simpa using this

/-- Validation of the embedded HMAC-SHA256 against the published test
vector (RFC 2202 style, key `key`, message `The quick brown fox jumps
over the lazy dog`). -/
theorem sign_known_vector :
    _sign "The quick brown fox jumps over the lazy dog" "key"
      = "f7bc83f430538424b13298e6aa6fb143ef4d59a14946175997479dbc2d1a3cd8" := by
  set_option maxRecDepth 10000 in decide

/-- Validation of the embedded SHA-256 against the FIPS 180-4 test vector
for the message `abc`. -/
theorem sha256_known_vector :
    hexOfBytes (sha256 (strBytes "abc"))
      = "ba7816bf8f01cfea414140de5dae2223b00361a396177a9cb410ff61f20015ad" := by
  set_option maxRecDepth 10000 in decide

/-! ## Claims -/

/-- C1: the aggregation pass maps each asset symbol to the sum of the
`usd` fields of every balance record with that symbol across all
sources, the grand total equals the sum of all per-asset aggregate
values (equivalently, of all records' `usd` fields), the output rows are
sorted by descending USD value, and the concrete two-source example
(`ETH 10` and `ETH 5, BTC 20`) yields aggregate `ETH 15, BTC 20`, total
`35`, and sorted rows `BTC 20, ETH 15`. -/
theorem C1_aggregation_sums_and_sorts :
    (∀ (srcs : List (String × List BalanceRecord)) (k : String),
        dictGet (dashboard (srcs.map fun s => (s.1, Except.ok s.2))).1 k
          = (((srcs.map Prod.snd).flatten.filter fun r => decide (r.asset = k)).map
              BalanceRecord.usd).sum)
    ∧ (∀ srcs : List (String × List BalanceRecord),
        total_usd (dashboard (srcs.map fun s => (s.1, Except.ok s.2))).1
          = ((srcs.map Prod.snd).flatten.map BalanceRecord.usd).sum)
    ∧ (∀ agg : Agg, List.Sorted rowsGE (sortRows agg) ∧ (sortRows agg).Perm agg)
    ∧ dashboard [("S1", Except.ok [⟨"ETH", 10, 10, "S1"⟩]),
        ("S2", Except.ok [⟨"ETH", 5, 5, "S2"⟩, ⟨"BTC", 20, 20, "S2"⟩])]
        = ([("ETH", 15), ("BTC", 20)], [])
    ∧ total_usd [("ETH", 15), ("BTC", 20)] = 35
    ∧ sortRows [("ETH", 15), ("BTC", 20)] = [("BTC", 20), ("ETH", 15)] := by
  refine ⟨?_, ?_, ?_, ?_, ?_, ?_⟩
  · intro srcs k
    rw [dashboard, runSources_all_ok]
    simp only
    rw [dictGet_aggregateRecords]
    simp [dictGet]
  · intro srcs
    rw [dashboard, runSources_all_ok]
    simp only
    rw [total_usd_aggregateRecords]
    simp [total_usd]
  · intro agg
    exact ⟨List.sorted_insertionSort rowsGE agg, List.perm_insertionSort rowsGE agg⟩
  · simp [dashboard, runSources, aggregateRecords, dictGet, dictSet]
    norm_num
  · norm_num [total_usd]
  · simp [sortRows, List.insertionSort, List.orderedInsert, rowsGE]
    norm_num

/-- C2: a source whose fetch raises is caught in isolation: its
diagnostic `"label: error"` is recorded and the aggregation dict is
exactly the one computed from the remaining sources, so no per-source
failure aborts the aggregation pass. -/
theorem C2_source_failure_isolated :
    ∀ (pre post : List (String × Except String (List BalanceRecord))) (lab e : String),
      (dashboard (pre ++ (lab, Except.error e) :: post)).1 = (dashboard (pre ++ post)).1
      ∧ (lab ++ ": " ++ e) ∈ (dashboard (pre ++ (lab, Except.error e) :: post)).2 := by
  intro pre post lab e
  rw [dashboard, dashboard, runSources_append, runSources_append]
  simp only [runSources]
  constructor
  · exact runSources_fst_congr post _ _ _
  · exact runSources_errs_mono post _ _ _ (by simp)

/-- C5: for every non-stablecoin symbol, a failing ticker lookup (any
failure: unknown pair, network error, non-2xx status, unparseable body —
all collapsed into `TickerResult.fail`) makes `price_usdt` return
exactly `0.0`; no exception escapes (the embedding is a total
function). -/
theorem C5_price_fail_returns_zero :
    ∀ (ticker : String → TickerResult) (asset : String),
      pyUpper asset ∉ stablecoins →
      ticker (pyUpper asset ++ "USDT") = TickerResult.fail →
      price_usdt ticker asset = (0, [pyUpper asset ++ "USDT"]) := by
  intro ticker asset h1 h2
  simp only [price_usdt, if_neg h1]
  rw [h2]

/-- Witness for C5 at `asset = "BTC"` with a ticker that always fails. -/
theorem C5_witness :
    price_usdt (fun _ => TickerResult.fail) "BTC" = (0, [pyUpper "BTC" ++ "USDT"]) :=
  C5_price_fail_returns_zero (fun _ => TickerResult.fail) "BTC" (by decide) rfl

/-- C6: every symbol of the fixed stablecoin set (USDT, BUSD, FDUSD)
resolves to exactly `1.0` with an empty list of network requests,
whatever the ticker endpoint would answer. -/
theorem C6_stablecoin_one_no_network :
    ∀ (ticker : String → TickerResult) (asset : String),
      asset ∈ stablecoins → price_usdt ticker asset = (1, []) := by
  intro ticker asset h
  simp only [stablecoins, List.mem_cons, List.not_mem_nil, or_false] at h
  rcases h with h | h | h <;> subst h <;> rfl

/-- Witness for C6 at `asset = "USDT"` with a ticker that would answer 5. -/
theorem C6_witness :
    price_usdt (fun _ => TickerResult.ok 5) "USDT" = (1, []) :=
  C6_stablecoin_one_no_network (fun _ => TickerResult.ok 5) "USDT" (by decide)

/-- C10: the price resolver is case-insensitive in its symbol argument:
`price_usdt` of a symbol and of its uppercased form agree (both the
price and the requests made), because the symbol is uppercased both for
the stablecoin test and when forming the `SYMBOL + "USDT"` pair. -/
theorem C10_price_case_insensitive :
    ∀ (ticker : String → TickerResult) (asset : String),
      price_usdt ticker asset = price_usdt ticker (pyUpper asset) := by
  intro ticker asset
  simp only [price_usdt, pyUpper_idem]

/-- C3 counterexample: the exchange fetcher filters on `total ≠ 0`
(Python float truthiness), not `total > 0`: an entry with
`free = -1, locked = 0` (total `-1`, not positive) still produces a
record, so "emits a balance record only when total > 0" is false as
stated. -/
theorem C3_counterexample :
    fetch_binance (fun _ => 1) [⟨"X", -1, 0⟩] = [⟨"X", -1, -1, "Binance"⟩]
      ∧ ¬ (0 : ℚ) < -1 := by
  constructor
  · norm_num [fetch_binance]
  · norm_num

/-- C3 (amended): the exchange fetcher computes `total = free + locked`
per entry and emits a record exactly when `total ≠ 0`, with
`usd = total * price(asset)`; when all entries are non-negative (as real
exchange balances are) this coincides with `total > 0`; the concrete
example (`BTC 1.0/0.5`, `ETH 0/0`) yields exactly the one `BTC` record
with amount `1.5` and `usd = 1.5 * price("BTC")`. -/
theorem C3_binance_total_filter :
    (∀ (price : String → ℚ) (balances : List BinBalance),
        fetch_binance price balances
          = (balances.filter fun b => decide (b.free + b.locked ≠ 0)).map
              (fun b => ⟨b.asset, b.free + b.locked, (b.free + b.locked) * price b.asset, "Binance"⟩))
    ∧ (∀ (price : String → ℚ) (balances : List BinBalance),
        (∀ b ∈ balances, 0 ≤ b.free ∧ 0 ≤ b.locked) →
        ∀ r ∈ fetch_binance price balances, 0 < r.amount)
    ∧ (∀ price : String → ℚ,
        fetch_binance price [⟨"BTC", 1, 1/2⟩, ⟨"ETH", 0, 0⟩]
          = [⟨"BTC", 3/2, 3/2 * price "BTC", "Binance"⟩]) := by
  refine ⟨fun price => fetch_binance_eq price, ?_, ?_⟩
  · intro price balances hnn r hr
    rw [fetch_binance_eq] at hr
    simp only [List.mem_map, List.mem_filter, decide_eq_true_eq] at hr
    obtain ⟨b, ⟨hbmem, hbne⟩, rfl⟩ := hr
    obtain ⟨h1, h2⟩ := hnn b hbmem
    exact lt_of_le_of_ne (add_nonneg h1 h2) (Ne.symm hbne)
  · intro price
    norm_num [fetch_binance]

/-- Witness for C3's amended positivity clause at a concrete
non-negative balance list. -/
theorem C3_witness :
    (0 : ℚ) < (BalanceRecord.mk "BTC" (3/2) (3/2) "Binance").amount := by
  apply C3_binance_total_filter.2.1 (fun _ => 1) [⟨"BTC", 1, 1/2⟩]
  · intro b hb
    simp only [List.mem_singleton] at hb
    subst hb
    norm_num
  · norm_num [fetch_binance]

/-- C4 counterexample: the Bitcoin fetcher does not filter zero-amount
entries: a response with balance `0` still yields one record, with
amount `0`. -/
theorem C4_counterexample :
    fetch_btc (fun _ => 1) 0 = [⟨"BTC", 0, 0, "BTC"⟩] := by
  norm_num [fetch_btc]

/-- C4 (amended): the exchange, ETH and SOL fetchers only return records
with nonzero amount (zero-amount entries are filtered out), but the
Bitcoin fetcher always returns exactly one record with amount
`sat / 1e8`, which is zero when the upstream balance is zero. -/
theorem C4_zero_amount_filtering :
    (∀ (price : String → ℚ) (balances : List BinBalance),
        ∀ r ∈ fetch_binance price balances, r.amount ≠ 0)
    ∧ (∀ (price_fn : String → ℚ) (tokens : List EthToken),
        ∀ r ∈ fetch_eth price_fn tokens, r.amount ≠ 0)
    ∧ (∀ (price_fn : String → ℚ) (tokens : List SolToken),
        ∀ r ∈ solRecords price_fn tokens, r.amount ≠ 0)
    ∧ (∀ (price_fn : String → ℚ) (sat : Int),
        fetch_btc price_fn sat
          = [⟨"BTC", (sat : ℚ) / 100000000, (sat : ℚ) / 100000000 * price_fn "BTC", "BTC"⟩]) := by
  refine ⟨?_, ?_, ?_, fun _ _ => rfl⟩
  · intro price balances r hr
    rw [fetch_binance_eq] at hr
    simp only [List.mem_map, List.mem_filter, decide_eq_true_eq] at hr
    obtain ⟨b, ⟨_, hbne⟩, rfl⟩ := hr
    exact hbne
  · intro price_fn tokens r hr
    rw [fetch_eth_eq] at hr
    simp only [List.mem_map, List.mem_filter, decide_eq_true_eq] at hr
    obtain ⟨t, ⟨_, htne⟩, rfl⟩ := hr
    exact htne
  · intro price_fn tokens r hr
    rw [solRecords_eq] at hr
    simp only [List.mem_filterMap] at hr
    obtain ⟨t, _, hsome⟩ := hr
    cases h : solAmount t with
    | none =>
      simp only [h] at hsome
      exact Option.noConfusion hsome
    | some amt =>
      simp only [h, Option.ite_none_right_eq_some, Option.some.injEq] at hsome
      obtain ⟨h2, rfl⟩ := hsome
      exact h2

/-- Witness for C4's exchange clause at a concrete balance list. -/
theorem C4_witness :
    (BalanceRecord.mk "BTC" (3/2) (3/2) "Binance").amount ≠ 0 := by
  apply C4_zero_amount_filtering.1 (fun _ => 1) [⟨"BTC", 1, 1/2⟩]
  norm_num [fetch_binance]

/-- C7: the SOL fetcher tries the `?account=` then the `?address=` URL
variant; a 404 on the first variant moves on to the second instead of
failing; a non-404 error on either consulted variant propagates; two
404s yield the empty list instead of an error; and the concrete example
(first variant 404, second variant one token with raw amount `1000000`
and 6 decimals) yields a single record with amount `1.0`. -/
theorem C7_sol_url_fallback :
    (∀ addr : String, solVariants addr = [solAccountUrl addr, solAddressUrl addr])
    ∧ (∀ (price_fn : String → ℚ) (f : String → HttpResult (List SolToken)) (addr e : String),
        f (solAccountUrl addr) = HttpResult.httpError e →
        fetch_sol price_fn f addr = Except.error e)
    ∧ (∀ (price_fn : String → ℚ) (f : String → HttpResult (List SolToken)) (addr e : String),
        f (solAccountUrl addr) = HttpResult.notFound →
        f (solAddressUrl addr) = HttpResult.httpError e →
        fetch_sol price_fn f addr = Except.error e)
    ∧ (∀ (price_fn : String → ℚ) (f : String → HttpResult (List SolToken)) (addr : String),
        f (solAccountUrl addr) = HttpResult.notFound →
        f (solAddressUrl addr) = HttpResult.notFound →
        fetch_sol price_fn f addr = Except.ok [])
    ∧ (∀ (price_fn : String → ℚ) (f : String → HttpResult (List SolToken)) (addr : String)
        (toks : List SolToken),
        f (solAccountUrl addr) = HttpResult.notFound →
        f (solAddressUrl addr) = HttpResult.ok toks →
        fetch_sol price_fn f addr = Except.ok (solRecords price_fn toks))
    ∧ (∀ (price_fn : String → ℚ) (f : String → HttpResult (List SolToken)) (addr : String),
        f (solAccountUrl addr) = HttpResult.notFound →
        f (solAddressUrl addr) = HttpResult.ok [⟨some ⟨some 1000000, 6⟩, some "TOK", none⟩] →
        fetch_sol price_fn f addr = Except.ok [⟨"TOK", 1, 1 * price_fn "TOK", "SOL"⟩]) := by
  refine ⟨fun _ => rfl, ?_, ?_, ?_, ?_, ?_⟩
  · intro price_fn f addr e h1
    simp [fetch_sol, solVariants, solTryVariants, h1]
  · intro price_fn f addr e h1 h2
    simp [fetch_sol, solVariants, solTryVariants, h1, h2]
  · intro price_fn f addr h1 h2
    simp [fetch_sol, solVariants, solTryVariants, h1, h2]
  · intro price_fn f addr toks h1 h2
    simp [fetch_sol, solVariants, solTryVariants, h1, h2]
  · intro price_fn f addr h1 h2
    simp only [fetch_sol, solVariants, solTryVariants, h1, h2]
    simp [solRecords, solAmount, solSymbol]
    norm_num

/-- Witness for C7's concrete clause: a fetch oracle answering 404 on the
first variant and one 6-decimal token of raw amount 1000000 on the
second. -/
theorem C7_witness :
    fetch_sol (fun _ => 1)
        (fun u => if u = solAccountUrl "A" then HttpResult.notFound
          else HttpResult.ok [⟨some ⟨some 1000000, 6⟩, some "TOK", none⟩]) "A"
      = Except.ok [⟨"TOK", 1, 1, "SOL"⟩] := by
  have h := C7_sol_url_fallback.2.2.2.2.2 (fun _ => 1)
    (fun u => if u = solAccountUrl "A" then HttpResult.notFound
      else HttpResult.ok [⟨some ⟨some 1000000, 6⟩, some "TOK", none⟩]) "A"
    (by decide) (by decide)
  simpa using h

/-- C8 counterexample: a token entry with a negative (hence non-positive)
parsed amount is not skipped: raw amount `-1000000` with 6 decimals
produces a record with amount `-1`. -/
theorem C8_counterexample :
    solRecords (fun _ => 1) [⟨some ⟨some (-1000000), 6⟩, some "NEG", none⟩]
        = [⟨"NEG", -1, -1, "SOL"⟩]
      ∧ (-1 : ℚ) ≤ 0 := by
  constructor
  · simp [solRecords, solAmount, solSymbol]
    norm_num
  · norm_num

/-- C8 (amended): for each token entry the SOL fetcher computes the
display quantity as `rawAmount / 10 ^ decimals`, or `0` when the
decimals field is unset or zero (an unset field is the value 0 via
`.get("decimals", 0)`); entries whose amount is zero or whose
`tokenAmount` fields are missing or unparseable are skipped individually
without aborting the whole fetch (negative amounts, however, are not
skipped); the remaining entries still produce records. -/
theorem C8_sol_token_conversion :
    (∀ (t : SolToken) (ta : SolTokenAmount) (lam : Int),
        t.tokenAmount = some ta → ta.amount = some lam →
        solAmount t = some (if ta.decimals ≠ 0 then (lam : ℚ) / 10 ^ ta.decimals else 0))
    ∧ (∀ t : SolToken, t.tokenAmount = none → solAmount t = none)
    ∧ (∀ (t : SolToken) (ta : SolTokenAmount),
        t.tokenAmount = some ta → ta.amount = none → solAmount t = none)
    ∧ (∀ (price_fn : String → ℚ) (tokens : List SolToken),
        solRecords price_fn tokens
          = tokens.filterMap (fun t =>
              match solAmount t with
              | none => none
              | some amt =>
                if amt ≠ 0 then
                  some ⟨solSymbol t, amt, amt * price_fn (solSymbol t), "SOL"⟩
                else
                  none)) := by
  refine ⟨?_, ?_, ?_, fun price_fn => solRecords_eq price_fn⟩
  · intro t ta lam h1 h2
    simp [solAmount, h1, h2]
  · intro t h1
    simp [solAmount, h1]
  · intro t ta h1 h2
    simp [solAmount, h1, h2]

/-- Witness for C8's conversion clause at a concrete 6-decimal token. -/
theorem C8_witness :
    solAmount ⟨some ⟨some 1000000, 6⟩, some "TOK", none⟩ = some 1 := by
  have h := C8_sol_token_conversion.1 ⟨some ⟨some 1000000, 6⟩, some "TOK", none⟩
    ⟨some 1000000, 6⟩ 1000000 rfl rfl
  norm_num at h
  exact h

/-- C9 counterexample: the clause "the digest differs for any change to
`qs` or `secret`" cannot hold: every digest is a 64-character hex
string, so there are only finitely many digests but infinitely many
query strings, and by the pigeonhole principle the signer cannot be
injective in `qs`. (No explicit collision is known, so the refutation is
nonconstructive.) -/
theorem C9_counterexample :
    ¬ ∀ (qs1 qs2 secret : String), _sign qs1 secret = _sign qs2 secret → qs1 = qs2 := by
  intro H
  have hfin : Finite {s : String // s.data.length = 64} := len64_finite
  have hinf : Infinite String := string_infinite
  obtain ⟨x, y, hxy, hfe⟩ := Finite.exists_ne_map_eq_of_infinite
    (fun qs : String => (⟨_sign qs "k", sign_data_length qs "k"⟩ : {s : String // s.data.length = 64}))
  exact hxy (H x y "k" (congrArg Subtype.val hfe))

/-- C9 (amended): the signer is a pure (hence deterministic,
side-effect-free) HMAC-SHA256 over the UTF-8 bytes of `qs` keyed by the
UTF-8 bytes of `secret`; every digest is a 64-character hex string; and
changing `qs` or `secret` changes the digest on concrete inputs
(collision resistance in full generality is a computational assumption,
not a theorem — see the counterexample). -/
theorem C9_sign_deterministic_hex :
    (∀ qs secret : String, (_sign qs secret).data.length = 64)
    ∧ _sign "a" "key" ≠ _sign "b" "key"
    ∧ _sign "a" "key" ≠ _sign "a" "kex" := by
  refine ⟨sign_data_length, ?_, ?_⟩
  · set_option maxRecDepth 10000 in decide
  · set_option maxRecDepth 10000 in decide
